import Mathlib

/-!
Verification of the comment/string-aware source-line scanner of
`repos/sloc-rust.py` (duplicated in `json-crawl.py`), the function
`count_rust_sloc`.

The scanner is embedded shallowly: the per-file mutable variables
(`block_depth`, `in_string`, `string_quote`, `raw_hashes`, `escape`)
become the fields of `ScanState`; the inner `while i < line_len` loop
over one line becomes `scanLineAux`, a structurally recursive function
on a fuel argument (each Python iteration consumes at least one
character, so fuel `line.length` is always sufficient); the loop over
the lines of one file becomes `countFileFrom`; the `os.walk` loop with
its `.rs` filter and its `except OSError: continue` becomes
`count_rust_sloc` over an abstract directory listing, where a file
whose content is `none` models a file whose open/read raises `OSError`.
-/

/-- The double-quote character, written `'"'` in the Python source. -/
def dquote : Char := Char.ofNat 34

/-- The single-quote character, written `"'"` in the Python source. -/
def squote : Char := Char.ofNat 39

/-- The backslash character, written `'\\'` in the Python source. -/
def bslash : Char := Char.ofNat 92

/-- The hash character `#` of raw-string delimiters. -/
def hashCh : Char := Char.ofNat 35

/-- The per-file scanner state of `count_rust_sloc`: the variables
initialized at the top of the `with open(...)` block.  `block_depth` is a
Python `int`, so it is modelled as `Int` (that it stays nonnegative is a
theorem, not a typing assumption). -/
structure ScanState where
  block_depth : Int
  in_string : Bool
  string_quote : Option Char
  raw_hashes : Nat
  escape : Bool
deriving Repr, DecidableEq

/-- The state at the start of each file: `block_depth = 0`,
`in_string = False`, `string_quote = None`, `raw_hashes = 0`,
`escape = False`. -/
def initState : ScanState :=
  { block_depth := 0, in_string := false, string_quote := none,
    raw_hashes := 0, escape := false }

/-- One line of the inner `while i < line_len` loop of `count_rust_sloc`,
as a fuel-indexed recursion.  The arguments are the scanner state, the
accumulated `code_buf`, and the characters of the line from position `i`
on; `rest.head?` plays the role of Python's `nxt` (`none` corresponds to
the empty-string lookahead at end of line).  Every Python iteration
advances `i` by at least one, so any fuel at least the length of the
remaining input gives the loop's exact result.  The branch order is the
branch order of the source, including the fact that the `//` and `/*`
checks are performed before the `in_string` check. -/
def scanLineAux : Nat → ScanState → List Char → List Char → ScanState × List Char
  | _, s, buf, [] => (s, buf)
  | 0, s, buf, _ :: _ => (s, buf)
  | fuel+1, s, buf, c :: rest =>
    if s.block_depth > 0 then
      -- inside a block comment: handle nesting
      if c = '/' ∧ rest.head? = some '*' then
        scanLineAux fuel { s with block_depth := s.block_depth + 1 } buf rest.tail
      else if c = '*' ∧ rest.head? = some '/' then
        scanLineAux fuel { s with block_depth := s.block_depth - 1 } buf rest.tail
      else
        scanLineAux fuel s buf rest
    else if c = '/' ∧ rest.head? = some '/' then
      -- start of line comment: `break` out of the per-line loop
      (s, buf)
    else if c = '/' ∧ rest.head? = some '*' then
      -- start of block comment
      scanLineAux fuel { s with block_depth := s.block_depth + 1 } buf rest.tail
    else if s.in_string then
      -- inside a string or char literal: the character joins `code_buf`
      if s.string_quote = some dquote then
        if s.raw_hashes = 0 then
          -- normal string with escapes
          if s.escape = false ∧ c = bslash then
            scanLineAux fuel { s with escape := true } (buf ++ [c]) rest
          else if s.escape = false ∧ c = dquote then
            scanLineAux fuel { s with in_string := false } (buf ++ [c]) rest
          else
            scanLineAux fuel { s with escape := false } (buf ++ [c]) rest
        else
          -- raw string: ends at a quote followed by `raw_hashes` hashes
          if c = dquote ∧ rest.take s.raw_hashes = List.replicate s.raw_hashes hashCh then
            scanLineAux fuel { s with in_string := false } (buf ++ [c])
              (rest.drop s.raw_hashes)
          else
            scanLineAux fuel s (buf ++ [c]) rest
      else
        -- char literal; simple escape handling
        if s.escape = false ∧ c = bslash then
          scanLineAux fuel { s with escape := true } (buf ++ [c]) rest
        else if s.escape = false ∧ c = squote then
          scanLineAux fuel { s with in_string := false } (buf ++ [c]) rest
        else
          scanLineAux fuel { s with escape := false } (buf ++ [c]) rest
    else if c = 'r' ∧ (rest.head? = some dquote ∨ rest.head? = some hashCh)
        ∧ (rest.drop (rest.takeWhile (fun x => x = hashCh)).length).head? = some dquote then
      -- raw string start `r"..."` or `r#"..."#`; the quote-after-hashes
      -- test folds in the source's fall-through when no quote follows
      scanLineAux fuel
        { s with in_string := true, string_quote := some dquote,
                 raw_hashes := (rest.takeWhile (fun x => x = hashCh)).length,
                 escape := false }
        (buf ++ 'r' :: (List.replicate (rest.takeWhile (fun x => x = hashCh)).length hashCh ++ [dquote]))
        (rest.drop ((rest.takeWhile (fun x => x = hashCh)).length + 1))
    else if c = dquote ∨ c = squote then
      -- opening a normal (non-raw) literal
      scanLineAux fuel
        { s with in_string := true, string_quote := some c,
                 raw_hashes := 0, escape := false }
        (buf ++ [c]) rest
    else
      -- regular code char
      scanLineAux fuel s (buf ++ [c]) rest

/-- Run the per-line loop of `count_rust_sloc` from state `s` with an
already-accumulated buffer `buf` on the remaining characters `line`.
The fuel `line.length` is exact: the loop advances by at least one
character per iteration. -/
def scanFrom (s : ScanState) (buf line : List Char) : ScanState × List Char :=
  scanLineAux line.length s buf line

/-- Python's `str.strip()` on a list of characters: drop leading and
trailing whitespace. -/
def pyStrip (l : List Char) : List Char :=
  ((l.dropWhile Char.isWhitespace).reverse.dropWhile Char.isWhitespace).reverse

/-- Process one line: run the scanner with a fresh empty `code_buf` and
decide `if ''.join(code_buf).strip():` — the line counts exactly when the
stripped buffer is nonempty. -/
def processLine (s : ScanState) (line : List Char) : ScanState × Bool :=
  let r := scanFrom s [] line
  (r.1, !(pyStrip r.2).isEmpty)

/-- The `for line in f` loop of `count_rust_sloc`: thread the state
through the lines and add 1 for each line whose stripped buffer is
nonempty.  Returns the final state together with the count. -/
def countFileFrom : ScanState → List (List Char) → ScanState × Nat
  | s, [] => (s, 0)
  | s, l :: ls =>
    let r := processLine s l
    let q := countFileFrom r.1 ls
    (q.1, (if r.2 then 1 else 0) + q.2)

/-- The scanner's contract `countCodeLines(text) -> integer`: the number
of code lines of one file, scanned from the fresh per-file state. -/
def countCodeLines (lines : List (List Char)) : Nat :=
  (countFileFrom initState lines).2

/-- The outer loops of `count_rust_sloc` over an abstract directory
listing: each entry is a file name together with `some` decoded lines,
or `none` when opening/reading the file raises `OSError` (the
`except OSError: continue` path).  Non-`.rs` names are skipped by the
`if not name.endswith(".rs"): continue` filter. -/
def count_rust_sloc (files : List (String × Option (List (List Char)))) : Nat :=
  files.foldl
    (fun total f =>
      if (".rs".toList).isSuffixOf f.1.toList then
        match f.2 with
        | some lines => total + countCodeLines lines
        | none => total
      else total)
    0

/-- The contribution of a single directory entry to `count_rust_sloc`:
an unreadable (`none`) entry contributes zero, a readable `.rs` file
contributes its `countCodeLines`. -/
def fileContrib : String × Option (List (List Char)) → Nat
  | (name, some lines) =>
    if (".rs".toList).isSuffixOf name.toList then countCodeLines lines else 0
  | (_, none) => 0

/-- Test input: the spec's example line `let s = "// not a comment";`. -/
def c1exLine : List Char :=
  "let s = ".toList ++ [dquote] ++ "// not a comment".toList ++ [dquote] ++ ";".toList

/-- Test input: a line opening a string literal that stays open at end of
line: `let s = "abc`. -/
def c1line1 : List Char := "let s = ".toList ++ [dquote] ++ "abc".toList

/-- Test input: a follow-up line whose non-whitespace content lies inside
the still-open string literal of `c1line1`. -/
def c1line2 : List Char := "  // inside string  ".toList

/-- Test input: the spec's example `let x = 5; // trailing comment`. -/
def trailingLine : List Char := "let x = 5; // trailing comment".toList

/-- Test input: the spec's nested block-comment example followed by code. -/
def nestedLine : List Char := "/* outer /* inner */ still outer */ code".toList

/-- Test input: a block comment spanning three lines followed by a code line. -/
def blockLines : List (List Char) :=
  ["/* line1".toList, "line2".toList, "line3 */".toList, "x".toList]

/-- Test input: the line `s = "\/* x` — inside the string literal, a
backslash arms the escape and the next character is `/` followed by `*`. -/
def c5line1 : List Char := "s = ".toList ++ [dquote, bslash] ++ "/* x".toList

/-- Test input: the line `q"r // s`, scanned after `c5line1`. -/
def c5line2 : List Char := "q".toList ++ [dquote] ++ "r // s".toList

set_option maxHeartbeats 1600000 in
/-- The result of `scanLineAux` does not depend on the fuel as long as the
fuel is at least the number of remaining characters (each iteration of the
source's `while` loop advances `i` by at least one). -/
theorem scanLineAux_fuel_eq :
    ∀ (f g : Nat) (s : ScanState) (buf cs : List Char),
      cs.length ≤ f → cs.length ≤ g →
      scanLineAux f s buf cs = scanLineAux g s buf cs := by
  intro f
  induction f with
  | zero =>
    intro g s buf cs hf _
    have hcs : cs = [] := by
      cases cs with
      | nil => rfl
      | cons c rest => simp at hf
    subst hcs
    cases g <;> rfl
  | succ f ih =>
    intro g s buf cs hf hg
    cases cs with
    | nil => cases g <;> rfl
    | cons c rest =>
      simp only [List.length_cons] at hf hg
      cases g with
      | zero => omega
      | succ g =>
        simp only [scanLineAux]
        split_ifs <;>
          first
          | rfl
          | (apply ih <;> (try simp only [List.length_tail, List.length_drop]) <;> omega)

/-- Inside a block comment, `/*` increments the depth and consumes two
characters; no character is appended to the code buffer. -/
theorem block_open_step (s : ScanState) (buf rest : List Char) (h : 0 < s.block_depth) :
    scanFrom s buf ('/' :: '*' :: rest) =
      scanFrom { s with block_depth := s.block_depth + 1 } buf rest := by
  simp only [scanFrom, List.length_cons, scanLineAux]
  rw [if_pos h]
  simp only [List.head?_cons, List.tail_cons]
  rw [if_pos (by simp)]
  apply scanLineAux_fuel_eq <;> omega

/-- Inside a block comment, `*/` decrements the depth and consumes two
characters; no character is appended to the code buffer. -/
theorem block_close_step (s : ScanState) (buf rest : List Char) (h : 0 < s.block_depth) :
    scanFrom s buf ('*' :: '/' :: rest) =
      scanFrom { s with block_depth := s.block_depth - 1 } buf rest := by
  simp only [scanFrom, List.length_cons, scanLineAux]
  rw [if_pos h]
  simp only [List.head?_cons, List.tail_cons]
  rw [if_neg (by simp +decide), if_pos (by simp)]
  apply scanLineAux_fuel_eq <;> omega

/-- Inside a block comment, any character that does not begin `/*` or `*/`
is skipped: the state and the code buffer are unchanged. -/
theorem block_skip_step (s : ScanState) (buf : List Char) (c : Char) (rest : List Char)
    (h : 0 < s.block_depth)
    (h1 : ¬(c = '/' ∧ rest.head? = some '*'))
    (h2 : ¬(c = '*' ∧ rest.head? = some '/')) :
    scanFrom s buf (c :: rest) = scanFrom s buf rest := by
  simp only [scanFrom, List.length_cons, scanLineAux]
  rw [if_pos h, if_neg h1, if_neg h2]

/-- Outside a block comment, `//` stops processing of the line at once —
whatever the literal state is — returning the state and the buffer as-is.
This is the source's `break`. -/
theorem line_comment_stop (s : ScanState) (buf rest : List Char) (h : ¬ 0 < s.block_depth) :
    scanFrom s buf ('/' :: '/' :: rest) = (s, buf) := by
  simp only [scanFrom, List.length_cons, scanLineAux]
  rw [if_neg h]
  simp

/-- While inside a block comment, a stretch of input without `*` can
neither close the comment nor open a nested one, so it is skipped whole:
state and buffer come out unchanged. -/
theorem scanLineAux_block_no_star :
    ∀ (f : Nat) (s : ScanState) (buf cs : List Char), 0 < s.block_depth →
      (∀ c ∈ cs, c ≠ '*') → scanLineAux f s buf cs = (s, buf) := by
  intro f
  induction f with
  | zero => intro s buf cs _ _; cases cs <;> rfl
  | succ f ih =>
    intro s buf cs hd hstar
    cases cs with
    | nil => rfl
    | cons c rest =>
      simp only [scanLineAux]
      rw [if_pos hd]
      rw [if_neg ?hopen, if_neg ?hclose]
      case hopen =>
        rintro ⟨-, h2⟩
        cases rest with
        | nil => simp at h2
        | cons a t =>
          simp only [List.head?_cons, Option.some.injEq] at h2
          exact hstar a (by simp) h2
      case hclose =>
        rintro ⟨h1, -⟩
        exact hstar c (by simp) h1
      exact ih s buf rest hd (fun x hx => hstar x (by simp [hx]))

set_option maxHeartbeats 1600000 in
/-- Every step of the scanner preserves nonnegativity of `block_depth`:
the only decrement sits in the branch guarded by `block_depth > 0`. -/
theorem scanLineAux_depth_nonneg :
    ∀ (f : Nat) (s : ScanState) (buf cs : List Char), 0 ≤ s.block_depth →
      0 ≤ (scanLineAux f s buf cs).1.block_depth := by
  intro f
  induction f with
  | zero => intro s buf cs h; cases cs <;> exact h
  | succ f ih =>
    intro s buf cs h
    cases cs with
    | nil => exact h
    | cons c rest =>
      simp only [scanLineAux]
      split_ifs with h1 <;>
        first
        | exact h
        | (apply ih; omega)
        | (apply ih; simp <;> omega)

/-- Nonnegativity of `block_depth` is preserved across the lines of a file. -/
theorem countFileFrom_depth_nonneg :
    ∀ (lines : List (List Char)) (s : ScanState), 0 ≤ s.block_depth →
      0 ≤ (countFileFrom s lines).1.block_depth := by
  intro lines
  induction lines with
  | nil => intro s h; exact h
  | cons l ls ih =>
    intro s h
    simp only [countFileFrom]
    exact ih _ (scanLineAux_depth_nonneg _ _ _ _ h)

/-- A file's code-line count never exceeds its number of lines: no line
past the end of the input is ever counted. -/
theorem countFileFrom_le_length :
    ∀ (lines : List (List Char)) (s : ScanState), (countFileFrom s lines).2 ≤ lines.length := by
  intro lines
  induction lines with
  | nil => intro s; simp [countFileFrom]
  | cons l ls ih =>
    intro s
    simp only [countFileFrom, List.length_cons]
    have := ih (processLine s l).1
    split <;> omega

/-- Scanning a file decomposes over concatenation of its lines: the count
contributed by a prefix of the lines is fixed once those lines are
processed and cannot be altered by whatever follows (in particular by an
end of input in the middle of a block comment or literal). -/
theorem countFileFrom_append :
    ∀ (ls1 ls2 : List (List Char)) (s : ScanState),
      countFileFrom s (ls1 ++ ls2)
        = ((countFileFrom (countFileFrom s ls1).1 ls2).1,
           (countFileFrom s ls1).2 + (countFileFrom (countFileFrom s ls1).1 ls2).2) := by
  intro ls1
  induction ls1 with
  | nil => intro ls2 s; simp [countFileFrom]
  | cons l ls ih =>
    intro ls2 s
    simp only [List.cons_append, countFileFrom, List.append_eq, ih]
    simp [Prod.ext_iff]
    omega

/-- Python's strip produces the empty string exactly when every character
of the buffer is whitespace. -/
theorem pyStrip_eq_nil_iff (l : List Char) :
    pyStrip l = [] ↔ ∀ c ∈ l, c.isWhitespace = true := by
  simp only [pyStrip, List.reverse_eq_nil_iff, List.dropWhile_eq_nil_iff, List.mem_reverse]
  constructor
  · intro h c hcl
    have heq := List.takeWhile_append_dropWhile (p := Char.isWhitespace) (l := l)
    rw [← heq] at hcl
    rcases List.mem_append.1 hcl with hm | hm
    · exact List.mem_takeWhile_imp hm
    · exact h c hm
  · intro h c hcd
    exact h c ((List.dropWhile_sublist _).subset hcd)

set_option maxHeartbeats 1600000 in
/-- If the buffer and the remaining input hold only whitespace, every
character the scanner accumulates is whitespace (whitespace characters can
trigger none of the marker branches). -/
theorem scanLineAux_ws :
    ∀ (f : Nat) (s : ScanState) (buf cs : List Char),
      (∀ c ∈ buf, c.isWhitespace = true) → (∀ c ∈ cs, c.isWhitespace = true) →
      ∀ c ∈ (scanLineAux f s buf cs).2, c.isWhitespace = true := by
  intro f
  induction f with
  | zero =>
    intro s buf cs hbuf _
    cases cs with
    | nil => exact hbuf
    | cons c rest => exact hbuf
  | succ f ih =>
    intro s buf cs hbuf hcs
    cases cs with
    | nil => exact hbuf
    | cons c rest =>
      have hc : c.isWhitespace = true := hcs c (by simp)
      have hrest : ∀ x ∈ rest, x.isWhitespace = true := fun x hx => hcs x (by simp [hx])
      have htail : ∀ x ∈ rest.tail, x.isWhitespace = true :=
        fun x hx => hrest x (List.mem_of_mem_tail hx)
      have hbuf1 : ∀ x ∈ buf ++ [c], x.isWhitespace = true := by
        intro x hx
        rcases List.mem_append.1 hx with hm | hm
        · exact hbuf x hm
        · rw [List.mem_singleton.1 hm]; exact hc
      have hne1 : ¬ c = '/' := by intro hceq; rw [hceq] at hc; exact absurd hc (by decide)
      have hne2 : ¬ c = '*' := by intro hceq; rw [hceq] at hc; exact absurd hc (by decide)
      have hne3 : ¬ c = 'r' := by intro hceq; rw [hceq] at hc; exact absurd hc (by decide)
      have hne4 : ¬ c = dquote := by intro hceq; rw [hceq] at hc; exact absurd hc (by decide)
      have hne5 : ¬ c = squote := by intro hceq; rw [hceq] at hc; exact absurd hc (by decide)
      have hne6 : ¬ c = bslash := by intro hceq; rw [hceq] at hc; exact absurd hc (by decide)
      simp only [scanLineAux, hne1, hne2, hne3, hne4, hne5, hne6, false_and, and_false,
        if_false, false_or, or_self]
      split_ifs <;>
        first
        | exact hbuf
        | exact ih _ _ _ hbuf htail
        | exact ih _ _ _ hbuf hrest
        | exact ih _ _ _ hbuf1 hrest

/-- A line is counted exactly when the scanner accumulated at least one
non-whitespace character for it. -/
theorem processLine_true_iff (s : ScanState) (line : List Char) :
    (processLine s line).2 = true ↔ ∃ c ∈ (scanFrom s [] line).2, c.isWhitespace = false := by
  simp only [processLine, Bool.not_eq_true']
  constructor
  · intro h
    by_contra hno
    push_neg at hno
    have hall : ∀ c ∈ (scanFrom s [] line).2, c.isWhitespace = true := by
      intro c hcl
      rcases Bool.eq_false_or_eq_true c.isWhitespace with ht | hf
      · exact ht
      · exact absurd hf (hno c hcl)
    have hnil : pyStrip (scanFrom s [] line).2 = [] := (pyStrip_eq_nil_iff _).2 hall
    rw [hnil] at h
    exact absurd h (by decide)
  · rintro ⟨c, hcl, hcf⟩
    rcases Bool.eq_false_or_eq_true ((pyStrip (scanFrom s [] line).2).isEmpty) with ht | hf
    · exfalso
      have hnil : pyStrip (scanFrom s [] line).2 = [] := by rwa [List.isEmpty_iff] at ht
      have := (pyStrip_eq_nil_iff _).1 hnil c hcl
      rw [this] at hcf
      cases hcf
    · exact hf

/-- Outside comments and literals, an `r` followed by `n` hashes and a
quote opens a raw string with `raw_hashes = n`, appending the whole
opening delimiter to the buffer and consuming it in one step. -/
theorem raw_open_general (q : Option Char) (r : Nat) (e : Bool) (n : Nat) (buf rest : List Char) :
    scanFrom ⟨0, false, q, r, e⟩ buf ('r' :: (List.replicate n hashCh ++ dquote :: rest)) =
      scanFrom ⟨0, true, some dquote, n, false⟩
        (buf ++ 'r' :: (List.replicate n hashCh ++ [dquote])) rest := by
  have hdrop : (List.replicate n hashCh ++ dquote :: rest).drop n = dquote :: rest := by
    have h := List.drop_left (List.replicate n hashCh) (dquote :: rest)
    simpa using h
  have hdrop1 : (List.replicate n hashCh ++ dquote :: rest).drop (n + 1) = rest := by
    have h2 := List.drop_drop 1 n (List.replicate n hashCh ++ dquote :: rest)
    rw [← h2, hdrop]
    rfl
  simp only [scanFrom, List.length_cons, scanLineAux]
  simp +decide
  have hguard : (((List.replicate n hashCh).head? = some dquote ∨ n = 0)
      ∨ (List.replicate n hashCh).head? = some hashCh) := by
    cases n with
    | zero => exact Or.inl (Or.inr rfl)
    | succ m => exact Or.inr (by simp [List.replicate_succ])
  rw [if_pos hguard, hdrop1]
  apply scanLineAux_fuel_eq <;> omega

/-- `count_rust_sloc` is the fold of per-entry contributions; generalized
over the initial accumulator. -/
theorem count_rust_sloc_foldl (fs : List (String × Option (List (List Char)))) :
    ∀ t : Nat,
      List.foldl
        (fun total f =>
          if (".rs".toList).isSuffixOf f.1.toList then
            match f.2 with
            | some lines => total + countCodeLines lines
            | none => total
          else total)
        t fs = t + (fs.map fileContrib).sum := by
  induction fs with
  | nil => intro t; simp
  | cons f fs ih =>
    intro t
    rcases f with ⟨name, content⟩
    simp only [List.foldl_cons, List.map_cons, List.sum_cons, ih]
    cases content with
    | none => simp only [fileContrib]; split_ifs <;> simp
    | some lines =>
      simp only [fileContrib]
      split_ifs with h
      · exact Nat.add_assoc _ _ _
      · simp

/-- `count_rust_sloc` of a directory listing is the sum of the
contributions of its entries. -/
theorem count_rust_sloc_eq_sum (fs : List (String × Option (List (List Char)))) :
    count_rust_sloc fs = (fs.map fileContrib).sum := by
  have h := count_rust_sloc_foldl fs 0
  simpa [count_rust_sloc] using h

/-- Claim C1: the claim states that `//` (and `/*`) are acted upon only
outside string and character literals, so that no line whose `//` sits
inside a string literal is treated as a comment.  The code checks `//`
and `/*` before it checks `in_string`, so inside a literal they do fire.
This theorem evaluates the code at the failing input: the spec's own
example line still reads "has code" (conjunct 1) but leaves the scanner
inside the string (conjunct 2, the `";` after the supposed comment was
never processed); and on the two-line file `let s = "abc` + the follow-up
line whose content `// inside string` lies inside the still-open literal,
the second line is dropped as a comment — only one line is counted
(conjuncts 3-5) although its literal content is non-whitespace code. -/
theorem C1_comment_checks_precede_string_check :
    (processLine initState c1exLine).2 = true
  ∧ (processLine initState c1exLine).1.in_string = true
  ∧ countCodeLines [c1line1, c1line2] = 1
  ∧ (countFileFrom initState [c1line1]).1.in_string = true
  ∧ (processLine (countFileFrom initState [c1line1]).1 c1line2).2 = false := by
  decide

/-- Claim C2, counterexample: with `raw_hashes = 2`, a quote followed by
three `#` characters does close the raw string literal, although the
claim says a closing attempt with three hashes must NOT close it. -/
theorem C2_three_hashes_still_close :
    (scanFrom ⟨0, true, some dquote, 2, false⟩ [] [dquote, hashCh, hashCh, hashCh]).1.in_string
      = false := by
  decide

/-- Claim C2 as amended: inside a raw string literal with
`raw_hashes = n + 1`, a `"` closes the literal exactly when it is
immediately followed on the same line by at least `n + 1` hashes — with
fewer available the literal stays open and only the quote is consumed;
on a close, the quote and exactly `n + 1` hashes are consumed in one
step and scanning continues after them. -/
theorem C2_raw_close_needs_at_least_n_hashes (n : Nat) (e : Bool) (buf rest : List Char) :
    scanFrom ⟨0, true, some dquote, n+1, e⟩ buf (dquote :: rest) =
      if rest.take (n+1) = List.replicate (n+1) hashCh then
        scanFrom ⟨0, false, some dquote, n+1, e⟩ (buf ++ [dquote]) (rest.drop (n+1))
      else
        scanFrom ⟨0, true, some dquote, n+1, e⟩ (buf ++ [dquote]) rest := by
  simp only [scanFrom, List.length_cons, scanLineAux]
  simp +decide [dquote]
  by_cases hcl : List.take (n+1) rest = List.replicate (n+1) hashCh
  · rw [if_pos hcl, if_pos hcl]
    apply scanLineAux_fuel_eq <;> simp only [List.length_drop] <;> omega
  · rw [if_neg hcl, if_neg hcl]

/-- Claim C3: while `block_depth > 0`, a `/*` increments the depth and a
`*/` decrements it, both consuming two characters; every other character
is skipped; no character in this mode joins the code buffer (the buffer
argument passes through unchanged in all three equations); a stretch
without `*` inside a block comment leaves state and count untouched, so
lines lying entirely inside a multi-line block comment are "no code";
and on the nested example line only the text after the depth-zeroing
`*/` is accumulated as code. -/
theorem C3_block_comment_scanning :
    (∀ (s : ScanState) (buf rest : List Char), 0 < s.block_depth →
        scanFrom s buf ('/' :: '*' :: rest) =
          scanFrom { s with block_depth := s.block_depth + 1 } buf rest)
  ∧ (∀ (s : ScanState) (buf rest : List Char), 0 < s.block_depth →
        scanFrom s buf ('*' :: '/' :: rest) =
          scanFrom { s with block_depth := s.block_depth - 1 } buf rest)
  ∧ (∀ (s : ScanState) (buf : List Char) (c : Char) (rest : List Char), 0 < s.block_depth →
        ¬(c = '/' ∧ rest.head? = some '*') → ¬(c = '*' ∧ rest.head? = some '/') →
        scanFrom s buf (c :: rest) = scanFrom s buf rest)
  ∧ (∀ (s : ScanState) (line : List Char), 0 < s.block_depth → (∀ c ∈ line, c ≠ '*') →
        processLine s line = (s, false))
  ∧ scanFrom initState [] nestedLine = (initState, " code".toList)
  ∧ countCodeLines blockLines = 1 := by
  refine ⟨block_open_step, block_close_step, block_skip_step, ?_, by decide, by decide⟩
  intro s line hd hstar
  have h := scanLineAux_block_no_star line.length s [] line hd hstar
  simp [processLine, scanFrom, h, pyStrip]

/-- Claim C3, witness: the hypotheses of the conditional parts hold at a
concrete state of depth one and a concrete star-free line, and the
instantiated conclusions follow from the claim's theorem. -/
theorem C3_block_comment_scanning_witness :
    ((0:Int) < (⟨1, false, none, 0, false⟩ : ScanState).block_depth
  ∧ (∀ c ∈ ("abc".toList), c ≠ '*'))
  ∧ processLine ⟨1, false, none, 0, false⟩ ("abc".toList) = (⟨1, false, none, 0, false⟩, false) :=
  ⟨⟨by decide, by decide⟩,
    C3_block_comment_scanning.2.2.2.1 ⟨1, false, none, 0, false⟩ ("abc".toList)
      (by decide) (by decide)⟩

/-- Claim C4: a line is counted as a code line iff its accumulated buffer
stripped of whitespace is non-empty: a line of whitespace characters is
never counted (whatever the carried state), the spec's trailing-comment
example is counted, and the counting flag is true exactly when some
accumulated character is non-whitespace. -/
theorem C4_line_counting_rule :
    (∀ (s : ScanState) (line : List Char),
        (∀ c ∈ line, c.isWhitespace = true) → (processLine s line).2 = false)
  ∧ (processLine initState trailingLine).2 = true
  ∧ (∀ (s : ScanState) (line : List Char),
        (processLine s line).2 = true ↔ ∃ c ∈ (scanFrom s [] line).2, c.isWhitespace = false) := by
  refine ⟨?_, by decide, processLine_true_iff⟩
  intro s line h
  have hws := scanLineAux_ws line.length s [] line (by intro c hc; cases hc) h
  have hnil : pyStrip (scanFrom s [] line).2 = [] := (pyStrip_eq_nil_iff _).2 hws
  simp [processLine, hnil]

/-- Claim C4, witness: a concrete all-whitespace line satisfies the
hypothesis and is not counted, by the claim's theorem. -/
theorem C4_line_counting_rule_witness :
    (∀ c ∈ ("   ".toList), c.isWhitespace = true)
  ∧ (processLine initState ("   ".toList)).2 = false :=
  ⟨by decide, C4_line_counting_rule.1 initState ("   ".toList) (by decide)⟩

/-- Claim C5: the claim states that inside a literal any character other
than an unescaped backslash or the closing quote disarms the escape flag,
with scanning continuing inside the literal.  In the code the `//` and
`/*` checks run first even inside a literal: conjunct 1 shows that with
the scanner inside any literal (any quote, any escape state), a `//`
aborts the line and returns the state verbatim — the armed escape is not
disarmed and the literal is not advanced.  Conjuncts 2 and 3 evaluate the
failing input: after the line `s = "\/* x` the scanner has opened a block
comment from inside the string (depth 1) with the escape still armed, and
of the two lines only one is counted, where the claim's escape rule would
close the string on line 2 and count both lines. -/
theorem C5_line_comment_overrides_escape :
    (∀ (q : Option Char) (r : Nat) (e : Bool) (buf rest : List Char),
        scanFrom ⟨0, true, q, r, e⟩ buf ('/' :: '/' :: rest) = (⟨0, true, q, r, e⟩, buf))
  ∧ countCodeLines [c5line1, c5line2] = 1
  ∧ (countFileFrom initState [c5line1]).1 = ⟨1, true, some dquote, 0, true⟩ := by
  refine ⟨?_, by decide, by decide⟩
  intro q r e buf rest
  exact line_comment_stop _ _ _ (by simp)

/-- Claim C6: the scan is total and consumes exactly the given lines —
the count of a file never exceeds its number of lines (no line past the
end of input is counted), and the count decomposes over a split of the
line list, so the classification of already-processed lines is unchanged
by whatever follows, in particular by the input ending inside a block
comment or a literal. -/
theorem C6_scan_total_and_prefix_stable :
    (∀ (s : ScanState) (lines : List (List Char)), (countFileFrom s lines).2 ≤ lines.length)
  ∧ (∀ (s : ScanState) (ls1 ls2 : List (List Char)),
        countFileFrom s (ls1 ++ ls2)
          = ((countFileFrom (countFileFrom s ls1).1 ls2).1,
             (countFileFrom s ls1).2 + (countFileFrom (countFileFrom s ls1).1 ls2).2)) :=
  ⟨fun s lines => countFileFrom_le_length lines s,
   fun s ls1 ls2 => countFileFrom_append ls1 ls2 s⟩

/-- Claim C7: `block_depth` starts at 0 for each file and every
character-processing step preserves its nonnegativity — the only
decrement sits inside the branch guarded by `block_depth > 0` — so the
state threaded through all lines of a file keeps `block_depth ≥ 0`. -/
theorem C7_block_depth_nonneg :
    initState.block_depth = 0
  ∧ (∀ (f : Nat) (s : ScanState) (buf cs : List Char), 0 ≤ s.block_depth →
        0 ≤ (scanLineAux f s buf cs).1.block_depth)
  ∧ (∀ (s : ScanState) (lines : List (List Char)), 0 ≤ s.block_depth →
        0 ≤ (countFileFrom s lines).1.block_depth) :=
  ⟨rfl, scanLineAux_depth_nonneg, fun s lines h => countFileFrom_depth_nonneg lines s h⟩

/-- Claim C7, witness: the invariant instantiated at the initial state
and a concrete line that opens a block comment. -/
theorem C7_block_depth_nonneg_witness :
    (0:Int) ≤ initState.block_depth
  ∧ (0:Int) ≤ (scanLineAux 2 initState [] ("/*".toList)).1.block_depth :=
  ⟨by decide, C7_block_depth_nonneg.2.1 2 initState [] ("/*".toList) (by decide)⟩

/-- Claim C8: an unreadable file (an entry whose content is `none`,
modelling the `except OSError: continue` path) contributes exactly zero
to the total and does not disturb the counting of the files around it. -/
theorem C8_unreadable_file_contributes_zero :
    ∀ (fs1 fs2 : List (String × Option (List (List Char)))) (name : String),
      count_rust_sloc (fs1 ++ (name, none) :: fs2) = count_rust_sloc (fs1 ++ fs2) := by
  intro fs1 fs2 name
  simp [count_rust_sloc_eq_sum, fileContrib]

/-- Claim C9: the scanner carries no state between files — the total of a
directory listing is the sum of independent per-file totals (so the count
of one file does not depend on which files were scanned before it), and
a single readable file's contribution is exactly `countCodeLines` of its
own content, computed from the freshly initialized per-file state. -/
theorem C9_no_state_across_files :
    (∀ (fs1 fs2 : List (String × Option (List (List Char)))),
        count_rust_sloc (fs1 ++ fs2) = count_rust_sloc fs1 + count_rust_sloc fs2)
  ∧ (∀ (name : String) (lines : List (List Char)),
        count_rust_sloc [(name, some lines)]
          = if (".rs".toList).isSuffixOf name.toList then countCodeLines lines else 0) := by
  constructor
  · intro fs1 fs2
    simp [count_rust_sloc_eq_sum]
  · intro name lines
    simp [count_rust_sloc_eq_sum, fileContrib]

/-- Claim C10: outside comments and literals, an `r` followed by `n`
hashes and a quote opens a raw string with `raw_hashes = n`, appending
the full opening delimiter to the buffer — regardless of the preceding
buffer and of the other state fields, i.e. with no look-behind; in
particular on the line `bar#"y` the check fires at the trailing `r` of
the identifier `bar` and opens a raw string with one hash. -/
theorem C10_raw_string_open_ignores_context :
    (∀ (q : Option Char) (r : Nat) (e : Bool) (n : Nat) (buf rest : List Char),
        scanFrom ⟨0, false, q, r, e⟩ buf ('r' :: (List.replicate n hashCh ++ dquote :: rest)) =
          scanFrom ⟨0, true, some dquote, n, false⟩
            (buf ++ 'r' :: (List.replicate n hashCh ++ [dquote])) rest)
  ∧ scanFrom initState [] ('b' :: 'a' :: 'r' :: hashCh :: dquote :: 'y' :: []) =
      (⟨0, true, some dquote, 1, false⟩, ['b', 'a', 'r', hashCh, dquote, 'y']) :=
  ⟨raw_open_general, by decide⟩
